import Mathlib

/-!
Shallow embedding of the transmuter simulation core
(`simulation/pool.py`, `simulation/limiters.py`, `rebalance_incentive.py`).

Balances are Python floats in the source; they are modelled here as exact
rationals (`ℚ`).  Python dicts (insertion ordered, unique keys) are modelled
as association lists: lookup and update act on the first matching key, and
insertion of a fresh key appends at the end, exactly as a Python dict behaves.
Operations that can raise (`KeyError` on a missing key, `ZeroDivisionError`
in the TWMA computation) are modelled with `Option`/`Except`; an `Except.error`
carries the pool state at the moment the exception propagates, because the
Python object keeps its partially mutated state when an exception escapes.
-/

namespace Transmuter

/-- A Python dict with `String` keys, as an insertion-ordered association
list with unique keys (uniqueness holds for every dict the API builds). -/
abbrev Dict (α : Type) := List (String × α)

/-- Balance mapping of the pool: `denom ↦ balance`. -/
abbrev Bal := Dict ℚ

/-- `d[k]` read access: first matching key, `none` models `KeyError`. -/
def alookup {α : Type} : Dict α → String → Option α
  | [], _ => none
  | (k', v) :: rest, k => if k' = k then some v else alookup rest k

/-- `d[k] = f d[k]` on an existing key: rewrite the first matching entry,
leave everything else (including order) unchanged. -/
def updateBal : Bal → String → (ℚ → ℚ) → Bal
  | [], _, _ => []
  | (k', v) :: rest, k, f =>
    if k' = k then (k', f v) :: rest else (k', v) :: updateBal rest k f

/-- `d[k] = v` store access of a Python dict: overwrite the first matching
entry in place, or append `(k, v)` at the end when the key is fresh. -/
def dictInsert {α : Type} : Dict α → String → α → Dict α
  | [], k, v => [(k, v)]
  | (k', v') :: rest, k, v =>
    if k' = k then (k', v) :: rest else (k', v') :: dictInsert rest k v

/-- The two limiter classes of `limiters.py` as a closed variant:
`StaticLimiter(upper_limit)` and `ChangeLimiter(offset, window_length)`
with its sample window (list of `(timestamp, value)` pairs). -/
inductive Limiter : Type
  | static (upper_limit : ℚ)
  | change (offset : ℚ) (window : List (ℤ × ℚ)) (window_length : ℕ)
deriving DecidableEq

/-- The accumulation loop of `ChangeLimiter.surpassed_limit`:
`for i in range(len(window) - 1): twma += (w[i+1][0] - w[i][0]) * w[i][1]`. -/
def twmaNum : List (ℤ × ℚ) → ℚ
  | [] => 0
  | [_] => 0
  | (t0, v0) :: (t1, v1) :: rest =>
    ((t1 - t0 : ℤ) : ℚ) * v0 + twmaNum ((t1, v1) :: rest)

/-- `Limiter.surpassed_limit(timestamp, value)`.
`StaticLimiter`: `value > upper_limit`.
`ChangeLimiter`: `False` on an empty window; otherwise the accumulated sum is
divided by `timestamp - window[0][0]`, which raises `ZeroDivisionError`
(modelled as `none`) when the query timestamp equals the oldest sample's
timestamp; finally `value > twma + offset`. -/
def Limiter.surpassed_limit : Limiter → ℤ → ℚ → Option Bool
  | .static u, _, v => some (decide (u < v))
  | .change _ [] _, _, _ => some false
  | .change off ((t0, v0) :: rest) _, t, v =>
    if t = t0 then none
    else some (decide (twmaNum ((t0, v0) :: rest) / ((t - t0 : ℤ) : ℚ) + off < v))

/-- `ChangeLimiter.update(timestamp, value)`: append the sample, then keep
`window[-window_length:]` (Python slice: for `window_length = 0` the slice
`[-0:]` is the whole list; otherwise the last `window_length` entries). -/
def Limiter.update : Limiter → ℤ → ℚ → Limiter
  | .static u, _, _ => .static u
  | .change off w wl, t, v =>
    let w' := w ++ [(t, v)]
    .change off (if wl = 0 then w' else w'.drop (w'.length - wl)) wl

/-- `Pool`: per-denom balances and per-denom limiter lists (`pool.py`). -/
structure Pool : Type where
  assets : Bal
  limiters : Dict (List Limiter)
deriving DecidableEq

/-- `Pool.__init__(denoms)`: every denom starts at balance `0.0` with an
empty limiter list. -/
def Pool.init (denoms : List String) : Pool :=
  { assets := denoms.foldl (fun l d => dictInsert l d 0) [],
    limiters := denoms.foldl (fun l d => dictInsert l d []) [] }

/-- `Pool.denoms()`: the keys of the balance dict, in insertion order. -/
def Pool.poolDenoms (p : Pool) : List String := p.assets.map Prod.fst

/-- `sum(self.assets.values())`. -/
def Pool.totalAssets (p : Pool) : ℚ := (p.assets.map Prod.snd).sum

/-- `Pool.weight(denom)`: `0` when the total balance is `0` (returned before
any key access, so no `KeyError` there); else `assets[denom] / total`,
`none` modelling the `KeyError` on an unregistered denom. -/
def Pool.weight (p : Pool) (denom : String) : Option ℚ :=
  if p.totalAssets = 0 then some 0
  else (alookup p.assets denom).map (fun b => b / p.totalAssets)

/-- Inner loop of `Pool.surpassed_limit`: evaluate each limiter in configured
order on the already computed weight, short-circuiting on the first `True`;
`none` when a limiter raises. -/
def checkLimiters (t : ℤ) (w : ℚ) : List Limiter → Option Bool
  | [] => some false
  | lim :: rest =>
    match lim.surpassed_limit t w with
    | none => none
    | some true => some true
    | some false => checkLimiters t w rest

/-- Outer loop of `Pool.surpassed_limit` over the given denom list:
`self.limiters[denom]` is a dict access (raises on a missing key), the
weight is computed on the current balances, and the whole evaluation
short-circuits on the first violated limiter. -/
def Pool.surpassedLimitAux (p : Pool) (t : ℤ) : List String → Option Bool
  | [] => some false
  | d :: rest =>
    match alookup p.limiters d with
    | none => none
    | some lims =>
      match p.weight d with
      | none => none
      | some w =>
        match checkLimiters t w lims with
        | none => none
        | some true => some true
        | some false => p.surpassedLimitAux t rest

/-- `Pool.surpassed_limit(timestamp)`: scan all denoms of the pool. -/
def Pool.surpassed_limit (p : Pool) (t : ℤ) : Option Bool :=
  p.surpassedLimitAux t p.poolDenoms

/-- The addition loop of `join_pool`:
`for denom in amount.keys(): self.assets[denom] += amount[denom]`.
A missing key raises `KeyError`; the error carries the balances mutated so
far, because the already executed iterations are not undone. -/
def joinAdd : Bal → List (String × ℚ) → Except Bal Bal
  | l, [] => .ok l
  | l, (k, x) :: rest =>
    match alookup l k with
    | none => .error l
    | some _ => joinAdd (updateBal l k (fun v => v + x)) rest

/-- Fold adding each `(denom, amount)` pair into the balances (the rollback
loop of `exit_pool` / commit direction of `join_pool`). -/
def addAll (l : Bal) (am : List (String × ℚ)) : Bal :=
  am.foldl (fun l' kx => updateBal l' kx.1 (fun v => v + kx.2)) l

/-- Fold subtracting each `(denom, amount)` pair from the balances (the
rollback loop of `join_pool`). -/
def subAll (l : Bal) (am : List (String × ℚ)) : Bal :=
  am.foldl (fun l' kx => updateBal l' kx.1 (fun v => v - kx.2)) l

/-- `Pool.join_pool(timestamp, amount)`: add all amounts, evaluate the
limits on the tentative balances, roll the additions back on a violation.
Errors (`KeyError` on an unknown denom, a raising limiter) propagate with
the tentatively mutated state. -/
def Pool.join_pool (p : Pool) (t : ℤ) (amount : List (String × ℚ)) :
    Except Pool (Bool × Pool) :=
  match joinAdd p.assets amount with
  | .error l => .error { p with assets := l }
  | .ok l =>
    let p' : Pool := { p with assets := l }
    match p'.surpassed_limit t with
    | none => .error p'
    | some true => .ok (false, { p' with assets := subAll l amount })
    | some false => .ok (true, p')

/-- The subtraction loop of `exit_pool`: each requested amount is first
clamped to the current balance (`if assets[denom] < amount[denom]:
amount[denom] = assets[denom]`), then subtracted.  Returns the new balances
together with the list of clamped amounts actually removed (the mutated
copy of `amount`, later used for rollback). -/
def exitSub : Bal → List (String × ℚ) → Except Bal (Bal × List (String × ℚ))
  | l, [] => .ok (l, [])
  | l, (k, x) :: rest =>
    match alookup l k with
    | none => .error l
    | some b =>
      let c := if b < x then b else x
      match exitSub (updateBal l k (fun v => v - c)) rest with
      | .error l' => .error l'
      | .ok (l', cs) => .ok (l', (k, c) :: cs)

/-- `Pool.exit_pool(timestamp, amount)`: clamp-and-subtract, evaluate the
limits on the tentative balances, and on a violation add back exactly the
clamped amounts. -/
def Pool.exit_pool (p : Pool) (t : ℤ) (amount : List (String × ℚ)) :
    Except Pool (Bool × Pool) :=
  match exitSub p.assets amount with
  | .error l => .error { p with assets := l }
  | .ok (l, cs) =>
    let p' : Pool := { p with assets := l }
    match p'.surpassed_limit t with
    | none => .error p'
    | some true => .ok (false, { p' with assets := addAll l cs })
    | some false => .ok (true, p')

/-- `Pool.swap(denom_in, denom_out, timestamp, amount)`: credit `denom_in`,
debit `denom_out` (no clamping), evaluate the limits, reverse both deltas
on a violation. -/
def Pool.swap (p : Pool) (dIn dOut : String) (t : ℤ) (x : ℚ) :
    Except Pool (Bool × Pool) :=
  match alookup p.assets dIn with
  | none => .error p
  | some _ =>
    let l1 := updateBal p.assets dIn (fun v => v + x)
    match alookup l1 dOut with
    | none => .error { p with assets := l1 }
    | some _ =>
      let l2 := updateBal l1 dOut (fun v => v - x)
      let p' : Pool := { p with assets := l2 }
      match p'.surpassed_limit t with
      | none => .error p'
      | some true =>
        .ok (false,
          { p' with assets :=
              updateBal (updateBal l2 dIn (fun v => v - x)) dOut (fun v => v + x) })
      | some false => .ok (true, p')

/-- `Pool.set_limiters(denom, limiters)`: `ValueError` (modelled as
`Except.error`) when the denom is not in the pool, otherwise replace the
limiter list wholesale. -/
def Pool.set_limiters (p : Pool) (denom : String) (ls : List Limiter) :
    Except Unit Pool :=
  match alookup p.assets denom with
  | none => .error ()
  | some _ => .ok { p with limiters := dictInsert p.limiters denom ls }

/-- `Pool.add_new_denom(denom)`: `self.assets[denom] = 0` — a plain dict
store: appends the denom at balance `0` when fresh, silently resets the
balance to `0` when the denom already exists; `self.limiters` is not
touched at all. -/
def Pool.add_new_denom (p : Pool) (denom : String) : Pool :=
  { p with assets := dictInsert p.assets denom 0 }

/-- `project_point(m)` from `rebalance_incentive.py`:
`m - ((1 · m - 1) / n) * 1` with `n = len(m)`. -/
def project_point (m : List ℚ) : List ℚ :=
  m.map (fun x => x - (m.sum - 1) / (m.length : ℚ))

end Transmuter

namespace Transmuter

/-! ### Association-list lemmas -/

theorem updateBal_congr (l : Bal) (k : String) (f g : ℚ → ℚ)
    (h : ∀ v, f v = g v) : updateBal l k f = updateBal l k g := by
  induction l with
  | nil => rfl
  | cons kv rest ih =>
    obtain ⟨k', v⟩ := kv
    simp only [updateBal]
    by_cases hk : k' = k
    · simp [hk, h]
    · simp [hk, ih]

theorem updateBal_sub (l : Bal) (k : String) (x : ℚ) :
    updateBal l k (fun v => v - x) = updateBal l k (fun v => v + (-x)) :=
  updateBal_congr l k _ _ (fun v => sub_eq_add_neg v x)

theorem updateBal_updateBal_same (l : Bal) (k : String) (f g : ℚ → ℚ) :
    updateBal (updateBal l k f) k g = updateBal l k (fun v => g (f v)) := by
  induction l with
  | nil => rfl
  | cons kv rest ih =>
    obtain ⟨k', v⟩ := kv
    by_cases hk : k' = k
    · simp [updateBal, hk]
    · simp [updateBal, hk, ih]

theorem updateBal_id (l : Bal) (k : String) :
    updateBal l k (fun v => v) = l := by
  induction l with
  | nil => rfl
  | cons kv rest ih =>
    obtain ⟨k', v⟩ := kv
    by_cases hk : k' = k
    · simp [updateBal, hk]
    · simp [updateBal, hk, ih]

theorem updateBal_add_comm (l : Bal) (k k' : String) (a b : ℚ) :
    updateBal (updateBal l k (fun v => v + a)) k' (fun v => v + b)
      = updateBal (updateBal l k' (fun v => v + b)) k (fun v => v + a) := by
  induction l with
  | nil => rfl
  | cons kv rest ih =>
    obtain ⟨k0, v⟩ := kv
    by_cases h1 : k0 = k
    · subst h1
      by_cases h2 : k0 = k'
      · subst h2
        simp [updateBal, add_right_comm]
      · simp [updateBal, h2]
    · by_cases h2 : k0 = k'
      · subst h2
        simp [updateBal, h1]
      · simp [updateBal, h1, h2, ih]

theorem alookup_updateBal_self (l : Bal) (k : String) (f : ℚ → ℚ) (b : ℚ)
    (h : alookup l k = some b) : alookup (updateBal l k f) k = some (f b) := by
  induction l with
  | nil => simp [alookup] at h
  | cons kv rest ih =>
    obtain ⟨k', v⟩ := kv
    by_cases hk : k' = k
    · simp [alookup, hk] at h
      simp [updateBal, alookup, hk, h]
    · simp [alookup, hk] at h
      simp [updateBal, alookup, hk, ih h]

theorem alookup_updateBal_other (l : Bal) (k k' : String) (f : ℚ → ℚ)
    (h : k' ≠ k) : alookup (updateBal l k f) k' = alookup l k' := by
  induction l with
  | nil => rfl
  | cons kv rest ih =>
    obtain ⟨k0, v⟩ := kv
    by_cases hk : k0 = k
    · subst hk
      have hne : ¬(k0 = k') := fun hh => h hh.symm
      simp [updateBal, alookup, hne]
    · by_cases hk' : k0 = k'
      · simp [updateBal, alookup, hk, hk', h]
      · simp [updateBal, alookup, hk, hk', ih]

theorem alookup_updateBal_none (l : Bal) (k k' : String) (f : ℚ → ℚ)
    (h : alookup l k' = none) : alookup (updateBal l k f) k' = none := by
  by_cases hk : k' = k
  · subst hk
    induction l with
    | nil => rfl
    | cons kv rest ih =>
      obtain ⟨k0, v⟩ := kv
      by_cases h0 : k0 = k'
      · simp [alookup, h0] at h
      · simp only [alookup, if_neg h0] at h
        simp [updateBal, alookup, h0, ih h]
  · rw [alookup_updateBal_other l k k' f hk]
    exact h

theorem alookup_some_mem (l : Bal) (k : String) (b : ℚ)
    (h : alookup l k = some b) : (k, b) ∈ l := by
  induction l with
  | nil => simp [alookup] at h
  | cons kv rest ih =>
    obtain ⟨k', v⟩ := kv
    by_cases hk : k' = k
    · simp [alookup, hk] at h
      simp [hk, h]
    · simp only [alookup, if_neg hk] at h
      exact List.mem_cons_of_mem _ (ih h)

theorem mem_updateBal (l : Bal) (k : String) (f : ℚ → ℚ) (b : ℚ)
    (h : alookup l k = some b) :
    ∀ kv ∈ updateBal l k f, kv ∈ l ∨ kv = (k, f b) := by
  induction l with
  | nil => simp [updateBal]
  | cons kv0 rest ih =>
    obtain ⟨k', v⟩ := kv0
    by_cases hk : k' = k
    · subst hk
      simp only [alookup, if_pos rfl, if_true, Option.some.injEq] at h
      subst h
      intro kv hkv
      simp only [updateBal, if_pos rfl, if_true, List.mem_cons] at hkv
      rcases hkv with h1 | h1
      · right; exact h1
      · left; exact List.mem_cons_of_mem _ h1
    · simp only [alookup, if_neg hk] at h
      intro kv hkv
      simp only [updateBal, if_neg hk, List.mem_cons] at hkv
      rcases hkv with h1 | h1
      · left; simp [h1]
      · rcases ih h kv h1 with h2 | h2
        · left; exact List.mem_cons_of_mem _ h2
        · right; exact h2

end Transmuter

namespace Transmuter

/-! ### Rollback machinery -/

theorem addAll_nil (l : Bal) : addAll l [] = l := rfl

theorem addAll_cons (l : Bal) (k : String) (x : ℚ) (rest : List (String × ℚ)) :
    addAll l ((k, x) :: rest) = addAll (updateBal l k (fun v => v + x)) rest := rfl

theorem subAll_nil (l : Bal) : subAll l [] = l := rfl

theorem subAll_cons (l : Bal) (k : String) (x : ℚ) (rest : List (String × ℚ)) :
    subAll l ((k, x) :: rest) = subAll (updateBal l k (fun v => v - x)) rest := rfl

theorem subAll_eq_addAll_neg (l : Bal) (am : List (String × ℚ)) :
    subAll l am = addAll l (am.map (fun kx => (kx.1, -kx.2))) := by
  induction am generalizing l with
  | nil => rfl
  | cons kx rest ih =>
    obtain ⟨k, x⟩ := kx
    rw [subAll_cons, List.map_cons, addAll_cons, updateBal_sub, ih]

theorem updateBal_addAll_comm (l : Bal) (am : List (String × ℚ)) (k : String) (a : ℚ) :
    updateBal (addAll l am) k (fun v => v + a)
      = addAll (updateBal l k (fun v => v + a)) am := by
  induction am generalizing l with
  | nil => rfl
  | cons kx rest ih =>
    obtain ⟨k0, x⟩ := kx
    rw [addAll_cons, addAll_cons, ih, updateBal_add_comm]

theorem addAll_neg_cancel (l : Bal) (am : List (String × ℚ)) :
    addAll (addAll l am) (am.map (fun kx => (kx.1, -kx.2))) = l := by
  induction am generalizing l with
  | nil => rfl
  | cons kx rest ih =>
    obtain ⟨k, x⟩ := kx
    simp only [List.map_cons, addAll_cons]
    rw [updateBal_addAll_comm, updateBal_updateBal_same]
    have hcan : updateBal l k (fun v => v + x + -x) = l := by
      rw [updateBal_congr l k _ (fun v => v) (fun v => by ring), updateBal_id]
    rw [hcan, ih]

theorem subAll_addAll_cancel (l : Bal) (am : List (String × ℚ)) :
    subAll (addAll l am) am = l := by
  rw [subAll_eq_addAll_neg, addAll_neg_cancel]

theorem addAll_subAll_cancel (l : Bal) (am : List (String × ℚ)) :
    addAll (subAll l am) am = l := by
  have h := addAll_neg_cancel l (am.map (fun kx => (kx.1, -kx.2)))
  have hmap : ((am.map (fun kx => (kx.1, -kx.2))).map (fun kx => (kx.1, -kx.2))) = am := by
    rw [List.map_map]
    have : ((fun kx : String × ℚ => (kx.1, -kx.2)) ∘ fun kx : String × ℚ => (kx.1, -kx.2))
        = id := by
      funext kx
      simp
    rw [this, List.map_id]
  rw [hmap, ← subAll_eq_addAll_neg] at h
  exact h

theorem joinAdd_ok (l l' : Bal) (am : List (String × ℚ))
    (h : joinAdd l am = .ok l') : l' = addAll l am := by
  induction am generalizing l with
  | nil =>
    simp only [joinAdd] at h
    cases h
    rfl
  | cons kx rest ih =>
    obtain ⟨k, x⟩ := kx
    simp only [joinAdd] at h
    cases hl : alookup l k with
    | none => rw [hl] at h; cases h
    | some b => rw [hl] at h; rw [addAll_cons]; exact ih _ h

theorem exitSub_ok (l l' : Bal) (am cs : List (String × ℚ))
    (h : exitSub l am = .ok (l', cs)) : l' = subAll l cs := by
  induction am generalizing l cs with
  | nil =>
    simp only [exitSub] at h
    cases h
    rfl
  | cons kx rest ih =>
    obtain ⟨k, x⟩ := kx
    simp only [exitSub] at h
    cases hl : alookup l k with
    | none => rw [hl] at h; cases h
    | some b =>
      rw [hl] at h
      simp only at h
      cases hrec : exitSub (updateBal l k (fun v => v - if b < x then b else x)) rest with
      | error l2 => rw [hrec] at h; cases h
      | ok pr =>
        obtain ⟨l2, cs2⟩ := pr
        rw [hrec] at h
        cases h
        rw [subAll_cons]
        exact ih _ _ hrec

end Transmuter


namespace Transmuter

/-! ### Operation characterizations -/

theorem join_pool_ok (p p' : Pool) (t : ℤ) (am : List (String × ℚ)) (b : Bool)
    (h : p.join_pool t am = .ok (b, p')) :
    ∃ l, joinAdd p.assets am = .ok l ∧ p'.limiters = p.limiters ∧
      (b = true → p'.assets = l) ∧ (b = false → p'.assets = subAll l am) := by
  simp only [Pool.join_pool] at h
  split at h
  next l hl => simp at h
  next l hl =>
    refine ⟨l, hl, ?_⟩
    split at h
    next hs => simp at h
    next hs =>
      simp only [Except.ok.injEq, Prod.mk.injEq] at h
      obtain ⟨hb, hp⟩ := h
      subst hb
      subst hp
      simp
    next hs =>
      simp only [Except.ok.injEq, Prod.mk.injEq] at h
      obtain ⟨hb, hp⟩ := h
      subst hb
      subst hp
      simp

theorem join_pool_error (p p' : Pool) (t : ℤ) (am : List (String × ℚ))
    (h : p.join_pool t am = .error p') : p'.limiters = p.limiters := by
  simp only [Pool.join_pool] at h
  split at h
  next l hl =>
    simp only [Except.error.injEq] at h
    subst h
    rfl
  next l hl =>
    split at h
    next hs =>
      simp only [Except.error.injEq] at h
      subst h
      rfl
    next hs => simp at h
    next hs => simp at h

theorem exit_pool_ok (p p' : Pool) (t : ℤ) (am : List (String × ℚ)) (b : Bool)
    (h : p.exit_pool t am = .ok (b, p')) :
    ∃ l cs, exitSub p.assets am = .ok (l, cs) ∧ p'.limiters = p.limiters ∧
      (b = true → p'.assets = l) ∧ (b = false → p'.assets = addAll l cs) := by
  simp only [Pool.exit_pool] at h
  split at h
  next l hl => simp at h
  next l cs hl =>
    refine ⟨l, cs, hl, ?_⟩
    split at h
    next hs => simp at h
    next hs =>
      simp only [Except.ok.injEq, Prod.mk.injEq] at h
      obtain ⟨hb, hp⟩ := h
      subst hb
      subst hp
      simp
    next hs =>
      simp only [Except.ok.injEq, Prod.mk.injEq] at h
      obtain ⟨hb, hp⟩ := h
      subst hb
      subst hp
      simp

theorem exit_pool_error (p p' : Pool) (t : ℤ) (am : List (String × ℚ))
    (h : p.exit_pool t am = .error p') : p'.limiters = p.limiters := by
  simp only [Pool.exit_pool] at h
  split at h
  next l hl =>
    simp only [Except.error.injEq] at h
    subst h
    rfl
  next l cs hl =>
    split at h
    next hs =>
      simp only [Except.error.injEq] at h
      subst h
      rfl
    next hs => simp at h
    next hs => simp at h

theorem swap_ok (p p' : Pool) (dIn dOut : String) (t : ℤ) (x : ℚ) (b : Bool)
    (h : p.swap dIn dOut t x = .ok (b, p')) :
    p'.limiters = p.limiters ∧
      (b = true →
        p'.assets = updateBal (updateBal p.assets dIn (fun v => v + x)) dOut (fun v => v - x)) ∧
      (b = false →
        p'.assets =
          updateBal (updateBal
            (updateBal (updateBal p.assets dIn (fun v => v + x)) dOut (fun v => v - x))
            dIn (fun v => v - x)) dOut (fun v => v + x)) := by
  simp only [Pool.swap] at h
  split at h
  next h1 => simp at h
  next b1 h1 =>
    split at h
    next h2 => simp at h
    next b2 h2 =>
      split at h
      next hs => simp at h
      next hs =>
        simp only [Except.ok.injEq, Prod.mk.injEq] at h
        obtain ⟨hb, hp⟩ := h
        subst hb
        subst hp
        simp
      next hs =>
        simp only [Except.ok.injEq, Prod.mk.injEq] at h
        obtain ⟨hb, hp⟩ := h
        subst hb
        subst hp
        simp

theorem swap_error (p p' : Pool) (dIn dOut : String) (t : ℤ) (x : ℚ)
    (h : p.swap dIn dOut t x = .error p') : p'.limiters = p.limiters := by
  simp only [Pool.swap] at h
  split at h
  next h1 =>
    simp only [Except.error.injEq] at h
    subst h
    rfl
  next b1 h1 =>
    split at h
    next h2 =>
      simp only [Except.error.injEq] at h
      subst h
      rfl
    next b2 h2 =>
      split at h
      next hs =>
        simp only [Except.error.injEq] at h
        subst h
        rfl
      next hs => simp at h
      next hs => simp at h

end Transmuter

namespace Transmuter

/-! ### Rollback and nonnegativity -/

theorem pool_eq (p q : Pool) (h1 : p.assets = q.assets)
    (h2 : p.limiters = q.limiters) : p = q := by
  cases p
  cases q
  simp_all

theorem updateBal_cancel (l : Bal) (k : String) (f g : ℚ → ℚ)
    (h : ∀ v, g (f v) = v) : updateBal (updateBal l k f) k g = l := by
  rw [updateBal_updateBal_same, updateBal_congr _ _ _ (fun v => v) h, updateBal_id]

theorem swap_updates_cancel (l : Bal) (dIn dOut : String) (x : ℚ) :
    updateBal (updateBal
      (updateBal (updateBal l dIn (fun v => v + x)) dOut (fun v => v - x))
      dIn (fun v => v - x)) dOut (fun v => v + x) = l := by
  simp only [updateBal_sub]
  rw [updateBal_add_comm (updateBal l dIn fun v => v + x) dOut dIn (-x) (-x),
    updateBal_cancel l dIn (fun v => v + x) (fun v => v + -x) (fun v => by ring),
    updateBal_cancel l dOut (fun v => v + -x) (fun v => v + x) (fun v => by ring)]

theorem join_rollback (p p' : Pool) (t : ℤ) (am : List (String × ℚ))
    (h : p.join_pool t am = .ok (false, p')) : p' = p := by
  obtain ⟨l, hl, hlim, _, hfalse⟩ := join_pool_ok p p' t am false h
  refine pool_eq p' p ?_ hlim
  rw [hfalse rfl, joinAdd_ok _ _ _ hl, subAll_addAll_cancel]

theorem exit_rollback (p p' : Pool) (t : ℤ) (am : List (String × ℚ))
    (h : p.exit_pool t am = .ok (false, p')) : p' = p := by
  obtain ⟨l, cs, hl, hlim, _, hfalse⟩ := exit_pool_ok p p' t am false h
  refine pool_eq p' p ?_ hlim
  rw [hfalse rfl, exitSub_ok _ _ _ _ hl, addAll_subAll_cancel]

theorem swap_rollback (p p' : Pool) (dIn dOut : String) (t : ℤ) (x : ℚ)
    (h : p.swap dIn dOut t x = .ok (false, p')) : p' = p := by
  obtain ⟨hlim, _, hfalse⟩ := swap_ok p p' dIn dOut t x false h
  refine pool_eq p' p ?_ hlim
  rw [hfalse rfl, swap_updates_cancel]

theorem updateBal_nonneg (l : Bal) (k : String) (f : ℚ → ℚ) (b : ℚ)
    (hl : ∀ kv ∈ l, 0 ≤ kv.2) (hb : alookup l k = some b) (hf : 0 ≤ f b) :
    ∀ kv ∈ updateBal l k f, 0 ≤ kv.2 := by
  intro kv hkv
  rcases mem_updateBal l k f b hb kv hkv with h1 | h1
  · exact hl kv h1
  · rw [h1]
    exact hf

theorem joinAdd_nonneg (l l' : Bal) (am : List (String × ℚ))
    (hl : ∀ kv ∈ l, 0 ≤ kv.2) (ham : ∀ kv ∈ am, 0 ≤ kv.2)
    (h : joinAdd l am = .ok l') : ∀ kv ∈ l', 0 ≤ kv.2 := by
  induction am generalizing l with
  | nil =>
    simp only [joinAdd] at h
    cases h
    exact hl
  | cons kx rest ih =>
    obtain ⟨k, x⟩ := kx
    simp only [joinAdd] at h
    cases hb : alookup l k with
    | none => rw [hb] at h; cases h
    | some b =>
      rw [hb] at h
      have hb0 : 0 ≤ b := hl (k, b) (alookup_some_mem l k b hb)
      have hx0 : 0 ≤ x := ham (k, x) (List.mem_cons_self _ _)
      refine ih (updateBal l k (fun v => v + x)) ?_ ?_ h
      · exact updateBal_nonneg l k _ b hl hb (by positivity)
      · intro kv hkv
        exact ham kv (List.mem_cons_of_mem _ hkv)

theorem exitSub_nonneg (l l' : Bal) (am cs : List (String × ℚ))
    (hl : ∀ kv ∈ l, 0 ≤ kv.2) (h : exitSub l am = .ok (l', cs)) :
    ∀ kv ∈ l', 0 ≤ kv.2 := by
  induction am generalizing l cs with
  | nil =>
    simp only [exitSub] at h
    cases h
    exact hl
  | cons kx rest ih =>
    obtain ⟨k, x⟩ := kx
    simp only [exitSub] at h
    cases hb : alookup l k with
    | none => rw [hb] at h; cases h
    | some b =>
      rw [hb] at h
      simp only at h
      have hb0 : 0 ≤ b := hl (k, b) (alookup_some_mem l k b hb)
      have hstep : ∀ kv ∈ updateBal l k (fun v => v - if b < x then b else x), 0 ≤ kv.2 := by
        refine updateBal_nonneg l k _ b hl hb ?_
        by_cases hbx : b < x
        · simp [hbx]
        · simp only [if_neg hbx, sub_nonneg]
          exact le_of_not_lt hbx
      cases hrec : exitSub (updateBal l k (fun v => v - if b < x then b else x)) rest with
      | error l2 => rw [hrec] at h; cases h
      | ok pr =>
        obtain ⟨l2, cs2⟩ := pr
        rw [hrec] at h
        cases h
        exact ih _ _ hstep hrec

end Transmuter

namespace Transmuter

/-! ### Missing-key errors -/

theorem joinAdd_error_of_missing (l : Bal) (am : List (String × ℚ)) (k : String) (x : ℚ)
    (hmem : (k, x) ∈ am) (hnone : alookup l k = none) :
    ∃ l', joinAdd l am = .error l' := by
  induction am generalizing l with
  | nil => simp at hmem
  | cons kx rest ih =>
    obtain ⟨k0, x0⟩ := kx
    simp only [joinAdd]
    cases hb : alookup l k0 with
    | none => exact ⟨l, rfl⟩
    | some b =>
      rcases List.mem_cons.mp hmem with heq | hmem'
      · injection heq with hk hx
        subst hk
        rw [hnone] at hb
        cases hb
      · exact ih (updateBal l k0 (fun v => v + x0)) hmem'
          (alookup_updateBal_none l k0 k _ hnone)

theorem exitSub_error_of_missing (l : Bal) (am : List (String × ℚ)) (k : String) (x : ℚ)
    (hmem : (k, x) ∈ am) (hnone : alookup l k = none) :
    ∃ l', exitSub l am = .error l' := by
  induction am generalizing l with
  | nil => simp at hmem
  | cons kx rest ih =>
    obtain ⟨k0, x0⟩ := kx
    simp only [exitSub]
    cases hb : alookup l k0 with
    | none => exact ⟨l, rfl⟩
    | some b =>
      rcases List.mem_cons.mp hmem with heq | hmem'
      · injection heq with hk hx
        subst hk
        rw [hnone] at hb
        cases hb
      · obtain ⟨l', hl'⟩ := ih (updateBal l k0 (fun v => v - if b < x0 then b else x0)) hmem'
          (alookup_updateBal_none l k0 k _ hnone)
        exact ⟨l', by simp [hl']⟩

theorem join_pool_error_of_missing (p : Pool) (t : ℤ) (am : List (String × ℚ))
    (k : String) (x : ℚ) (hmem : (k, x) ∈ am) (hnone : alookup p.assets k = none) :
    ∃ q, p.join_pool t am = .error q := by
  obtain ⟨l', hl'⟩ := joinAdd_error_of_missing p.assets am k x hmem hnone
  exact ⟨{ p with assets := l' }, by simp [Pool.join_pool, hl']⟩

theorem exit_pool_error_of_missing (p : Pool) (t : ℤ) (am : List (String × ℚ))
    (k : String) (x : ℚ) (hmem : (k, x) ∈ am) (hnone : alookup p.assets k = none) :
    ∃ q, p.exit_pool t am = .error q := by
  obtain ⟨l', hl'⟩ := exitSub_error_of_missing p.assets am k x hmem hnone
  exact ⟨{ p with assets := l' }, by simp [Pool.exit_pool, hl']⟩

/-! ### Weight lemmas -/

theorem alookup_eq_of_mem_nodup {α : Type} (l : Dict α)
    (hnd : (l.map Prod.fst).Nodup) :
    ∀ kv ∈ l, alookup l kv.1 = some kv.2 := by
  induction l with
  | nil => simp
  | cons kv0 rest ih =>
    obtain ⟨k0, v0⟩ := kv0
    simp only [List.map_cons, List.nodup_cons] at hnd
    obtain ⟨hk0, hrest⟩ := hnd
    intro kv hkv
    rcases List.mem_cons.mp hkv with heq | hmem
    · subst heq
      simp [alookup]
    · have hne : k0 ≠ kv.1 := by
        intro hcontra
        exact hk0 (hcontra ▸ List.mem_map_of_mem Prod.fst hmem)
      simp only [alookup, if_neg hne]
      exact ih hrest kv hmem

theorem list_sum_div (l : List ℚ) (c : ℚ) :
    (l.map (fun v => v / c)).sum = l.sum / c := by
  induction l with
  | nil => simp
  | cons v rest ih => simp [ih, add_div]

theorem sum_weights (p : Pool) (hnd : (p.assets.map Prod.fst).Nodup)
    (h0 : p.totalAssets ≠ 0) :
    (p.poolDenoms.map (fun d => (p.weight d).getD 0)).sum = 1 := by
  unfold Pool.poolDenoms
  rw [List.map_map]
  have hmap : p.assets.map ((fun d => (p.weight d).getD 0) ∘ Prod.fst)
      = p.assets.map (fun kv => kv.2 / p.totalAssets) := by
    apply List.map_congr_left
    intro kv hkv
    simp only [Function.comp_apply]
    rw [Pool.weight, if_neg h0, alookup_eq_of_mem_nodup p.assets hnd kv hkv]
    rfl
  rw [hmap,
    show (fun kv : String × ℚ => kv.2 / p.totalAssets)
      = (fun v => v / p.totalAssets) ∘ Prod.snd from rfl,
    ← List.map_map, list_sum_div]
  exact div_self h0

/-! ### TWMA specification -/

/-- The TWMA numerator exactly as the specification words it: the sum over
consecutive sample pairs of `(t_{i+1} - t_i) * v_i`. -/
def twmaSpec (w : List (ℤ × ℚ)) : ℚ :=
  ∑ i ∈ Finset.range (w.length - 1),
    (((w.getD (i + 1) (0, 0)).1 - (w.getD i (0, 0)).1 : ℤ) : ℚ) * (w.getD i (0, 0)).2

theorem twmaNum_eq_twmaSpec (w : List (ℤ × ℚ)) : twmaNum w = twmaSpec w := by
  induction w with
  | nil => simp [twmaNum, twmaSpec]
  | cons a rest ih =>
    cases rest with
    | nil =>
      obtain ⟨t0, v0⟩ := a
      simp [twmaNum, twmaSpec]
    | cons b rest2 =>
      obtain ⟨t0, v0⟩ := a
      obtain ⟨t1, v1⟩ := b
      simp only [twmaNum]
      rw [ih]
      simp only [twmaSpec, List.length_cons, Nat.add_sub_cancel]
      rw [Finset.sum_range_succ']
      rw [add_comm]
      congr 1

/-! ### dictInsert lemmas -/

theorem alookup_dictInsert_self {α : Type} (l : Dict α) (k : String) (v : α) :
    alookup (dictInsert l k v) k = some v := by
  induction l with
  | nil => simp [dictInsert, alookup]
  | cons kv0 rest ih =>
    obtain ⟨k0, v0⟩ := kv0
    by_cases hk : k0 = k
    · simp [dictInsert, alookup, hk]
    · simp [dictInsert, alookup, hk, ih]

theorem dictInsert_of_missing {α : Type} (l : Dict α) (k : String) (v : α)
    (h : alookup l k = none) : dictInsert l k v = l ++ [(k, v)] := by
  induction l with
  | nil => rfl
  | cons kv0 rest ih =>
    obtain ⟨k0, v0⟩ := kv0
    by_cases hk : k0 = k
    · simp [alookup, hk] at h
    · simp only [alookup, if_neg hk] at h
      simp [dictInsert, hk, ih h]

theorem alookup_dictInsert_other {α : Type} (l : Dict α) (k k' : String) (v : α)
    (h : k' ≠ k) : alookup (dictInsert l k v) k' = alookup l k' := by
  induction l with
  | nil => simp [dictInsert, alookup, Ne.symm h]
  | cons kv0 rest ih =>
    obtain ⟨k0, v0⟩ := kv0
    by_cases hk : k0 = k
    · subst hk
      have hne : ¬(k0 = k') := fun hh => h hh.symm
      simp [dictInsert, alookup, hne]
    · by_cases hk' : k0 = k'
      · simp [dictInsert, alookup, hk, hk', h]
      · simp [dictInsert, alookup, hk, hk', ih]

end Transmuter

namespace Transmuter

/-! ### Projection lemmas -/

theorem list_sum_map_sub (v : List ℚ) (c : ℚ) :
    (v.map (fun x => x - c)).sum = v.sum - v.length * c := by
  induction v with
  | nil => simp
  | cons a rest ih =>
    simp only [List.map_cons, List.sum_cons, ih, List.length_cons]
    push_cast
    ring

theorem project_point_sum (u : List ℚ) (hu : (u.length : ℚ) ≠ 0) :
    (project_point u).sum = 1 := by
  rw [project_point, list_sum_map_sub, mul_div_assoc', mul_comm,
    mul_div_assoc, div_self hu]
  ring

theorem project_point_fixed (u : List ℚ) (hu : u.sum = 1) :
    project_point u = u := by
  rw [project_point, hu]
  simp

theorem strAB : (("A" : String) = "B") = False := by simp

theorem strBA : (("B" : String) = "A") = False := by simp

/-! ### Claims -/

/-- C1: every `join_pool`, `exit_pool` or `swap` call that returns `False`
leaves the pool (in particular its full asset-balance mapping) exactly equal
to the pre-call state: the tentative additions/subtractions are rolled back
and no state change is observable. -/
theorem claim_C1 (p p' : Pool) (t : ℤ) (am : List (String × ℚ))
    (dIn dOut : String) (x : ℚ) :
    (p.join_pool t am = .ok (false, p') → p' = p) ∧
    (p.exit_pool t am = .ok (false, p') → p' = p) ∧
    (p.swap dIn dOut t x = .ok (false, p') → p' = p) :=
  ⟨join_rollback p p' t am, exit_rollback p p' t am,
   swap_rollback p p' dIn dOut t x⟩

def c1pool : Pool :=
  ⟨[("A", 0), ("B", 0)], [("A", [Limiter.static (3/5)]), ("B", [])]⟩

def c1pool2 : Pool :=
  ⟨[("A", 5), ("B", 5)], [("A", [Limiter.static (3/5)]), ("B", [])]⟩

theorem claim_C1_witness :
    (c1pool.join_pool 1 [("A", 100)] = .ok (false, c1pool) ∧ c1pool = c1pool) ∧
    (c1pool2.exit_pool 1 [("B", 5)] = .ok (false, c1pool2) ∧ c1pool2 = c1pool2) ∧
    (c1pool2.swap "A" "B" 1 5 = .ok (false, c1pool2) ∧ c1pool2 = c1pool2) := by
  have hj : c1pool.join_pool 1 [("A", 100)] = .ok (false, c1pool) := by
    norm_num [c1pool, Pool.join_pool, joinAdd, subAll, alookup, updateBal,
      Pool.surpassed_limit, Pool.surpassedLimitAux, Pool.poolDenoms, Pool.weight,
      Pool.totalAssets, checkLimiters, Limiter.surpassed_limit, String.reduceEq, strAB, strBA]
  have he : c1pool2.exit_pool 1 [("B", 5)] = .ok (false, c1pool2) := by
    norm_num [c1pool2, Pool.exit_pool, exitSub, addAll, alookup, updateBal,
      Pool.surpassed_limit, Pool.surpassedLimitAux, Pool.poolDenoms, Pool.weight,
      Pool.totalAssets, checkLimiters, Limiter.surpassed_limit, String.reduceEq, strAB, strBA]
  have hsw : c1pool2.swap "A" "B" 1 5 = .ok (false, c1pool2) := by
    norm_num [c1pool2, Pool.swap, alookup, updateBal,
      Pool.surpassed_limit, Pool.surpassedLimitAux, Pool.poolDenoms, Pool.weight,
      Pool.totalAssets, checkLimiters, Limiter.surpassed_limit, String.reduceEq, strAB, strBA]
  exact ⟨⟨hj, (claim_C1 c1pool c1pool 1 [("A", 100)] "A" "B" 0).1 hj⟩,
    ⟨he, (claim_C1 c1pool2 c1pool2 1 [("B", 5)] "A" "B" 0).2.1 he⟩,
    ⟨hsw, (claim_C1 c1pool2 c1pool2 1 [] "A" "B" 5).2.2 hsw⟩⟩

/-- C2 as stated is false: a `join_pool` whose amounts reference an
unregistered asset raises mid-loop, and the balances already mutated by the
earlier iterations stay mutated.  Concretely, on a pool with only `"A"` at
balance `0`, `join_pool 1 {A: 5, B: 3}` raises on `"B"` and leaves `A = 5`,
a partial application observable by the caller. -/
theorem claim_C2_cex :
    (Pool.mk [("A", 0)] [("A", [])]).join_pool 1 [("A", 5), ("B", 3)]
      = .error (Pool.mk [("A", 5)] [("A", [])]) ∧
    (Pool.mk [("A", (5:ℚ))] [("A", [])]).assets
      ≠ (Pool.mk [("A", (0:ℚ))] [("A", [])]).assets := by
  constructor
  · norm_num [Pool.join_pool, joinAdd, alookup, updateBal, String.reduceEq, strAB, strBA]
  · norm_num

/-- C2 (amended): a mutator that completes with a boolean either fully
commits or fully rolls back, and a call whose amounts reference an
unregistered asset identifier reports an error (`KeyError`) to the caller;
however, on such an error the pool is NOT restored: the assets processed
before the unknown identifier remain mutated (see the counterexample), so
the no-partial-application guarantee holds only for the boolean outcomes. -/
theorem claim_C2 (p : Pool) (t : ℤ) (am : List (String × ℚ)) :
    (∀ k x, (k, x) ∈ am → alookup p.assets k = none →
      (∃ q, p.join_pool t am = .error q) ∧ (∃ q, p.exit_pool t am = .error q)) ∧
    (∀ p', p.join_pool t am = .ok (false, p') → p' = p) ∧
    (∀ p', p.exit_pool t am = .ok (false, p') → p' = p) ∧
    (∀ p' dIn dOut x, p.swap dIn dOut t x = .ok (false, p') → p' = p) :=
  ⟨fun k x hm hn => ⟨join_pool_error_of_missing p t am k x hm hn,
      exit_pool_error_of_missing p t am k x hm hn⟩,
   fun p' => join_rollback p p' t am,
   fun p' => exit_rollback p p' t am,
   fun p' dIn dOut x => swap_rollback p p' dIn dOut t x⟩

def c2pool : Pool := ⟨[("A", 0)], [("A", [])]⟩

def c2pool2 : Pool :=
  ⟨[("A", 0), ("B", 0)], [("A", [Limiter.static (1/2)]), ("B", [])]⟩

theorem claim_C2_witness :
    ((∃ q, c2pool.join_pool 1 [("A", 5), ("B", 3)] = .error q) ∧
     (∃ q, c2pool.exit_pool 1 [("A", 5), ("B", 3)] = .error q)) ∧
    (c2pool2.join_pool 1 [("A", 7)] = .ok (false, c2pool2) ∧ c2pool2 = c2pool2) := by
  have hj : c2pool2.join_pool 1 [("A", 7)] = .ok (false, c2pool2) := by
    norm_num [c2pool2, Pool.join_pool, joinAdd, subAll, alookup, updateBal,
      Pool.surpassed_limit, Pool.surpassedLimitAux, Pool.poolDenoms, Pool.weight,
      Pool.totalAssets, checkLimiters, Limiter.surpassed_limit, String.reduceEq, strAB, strBA]
  refine ⟨(claim_C2 c2pool 1 [("A", 5), ("B", 3)]).1 "B" 3 ?_ ?_,
    hj, (claim_C2 c2pool2 1 [("A", 7)]).2.1 c2pool2 hj⟩
  · norm_num [String.reduceEq, strAB, strBA]
  · norm_num [c2pool, alookup, String.reduceEq, strAB, strBA]

/-- C3 as stated is false for `swap`: on a pool with balances `A = B = 0`
(all nonnegative), `swap("A", "B", 1, 1)` commits (returns `True`) and leaves
`B = -1 < 0` — the swap debit is not clamped and no limiter stops it. -/
theorem claim_C3_cex :
    (Pool.mk [("A", 0), ("B", 0)] [("A", []), ("B", [])]).swap "A" "B" 1 1
      = .ok (true, Pool.mk [("A", 1), ("B", -1)] [("A", []), ("B", [])]) ∧
    alookup (Pool.mk [("A", (1:ℚ)), ("B", -1)] [("A", []), ("B", [])]).assets "B"
      = some (-1) ∧
    ((-1 : ℚ) < 0) := by
  refine ⟨?_, ?_, by norm_num⟩
  · norm_num [Pool.swap, alookup, updateBal, Pool.surpassed_limit,
      Pool.surpassedLimitAux, Pool.poolDenoms, Pool.weight, Pool.totalAssets,
      checkLimiters, Limiter.surpassed_limit, String.reduceEq, strAB, strBA]
  · norm_num [alookup, String.reduceEq, strAB, strBA]

/-- C3 (amended): on a pool whose balances are all nonnegative, a committed
(or rolled-back) `join_pool` with nonnegative amounts, and any `exit_pool`
outcome, leave every balance nonnegative (exit amounts are clamped to the
available balance); `swap` is excluded — it can drive the out-asset negative
(see the counterexample). -/
theorem claim_C3 (p p' : Pool) (t : ℤ) (am : List (String × ℚ)) (b : Bool)
    (hp : ∀ kv ∈ p.assets, 0 ≤ kv.2) :
    ((∀ kv ∈ am, 0 ≤ kv.2) → p.join_pool t am = .ok (b, p') →
      ∀ kv ∈ p'.assets, 0 ≤ kv.2) ∧
    (p.exit_pool t am = .ok (b, p') → ∀ kv ∈ p'.assets, 0 ≤ kv.2) := by
  constructor
  · intro ham h
    obtain ⟨l, hl, hlim, htrue, hfalse⟩ := join_pool_ok p p' t am b h
    cases b with
    | false =>
      have hass : p'.assets = p.assets := by
        rw [hfalse rfl, joinAdd_ok _ _ _ hl, subAll_addAll_cancel]
      rw [hass]
      exact hp
    | true =>
      rw [htrue rfl]
      exact joinAdd_nonneg p.assets l am hp ham hl
  · intro h
    obtain ⟨l, cs, hl, hlim, htrue, hfalse⟩ := exit_pool_ok p p' t am b h
    cases b with
    | false =>
      have hass : p'.assets = p.assets := by
        rw [hfalse rfl, exitSub_ok _ _ _ _ hl, addAll_subAll_cancel]
      rw [hass]
      exact hp
    | true =>
      rw [htrue rfl]
      exact exitSub_nonneg p.assets l am cs hp hl

def c3pool : Pool := ⟨[("A", 0), ("B", 0)], [("A", []), ("B", [])]⟩

def c3pool' : Pool := ⟨[("A", 5), ("B", 0)], [("A", []), ("B", [])]⟩

theorem claim_C3_witness :
    (c3pool.join_pool 1 [("A", 5)] = .ok (true, c3pool') ∧
      ∀ kv ∈ c3pool'.assets, 0 ≤ kv.2) ∧
    (c3pool'.exit_pool 2 [("A", 10)]
        = .ok (true, Pool.mk [("A", 0), ("B", 0)] [("A", []), ("B", [])]) ∧
      ∀ kv ∈ (Pool.mk [("A", (0:ℚ)), ("B", 0)] [("A", []), ("B", [])]).assets,
        0 ≤ kv.2) := by
  have hp0 : ∀ kv ∈ c3pool.assets, 0 ≤ kv.2 := by
    intro kv hkv
    simp only [c3pool, List.mem_cons, List.not_mem_nil, or_false] at hkv
    rcases hkv with h | h <;> simp [h]
  have hp1 : ∀ kv ∈ c3pool'.assets, 0 ≤ kv.2 := by
    intro kv hkv
    simp only [c3pool', List.mem_cons, List.not_mem_nil, or_false] at hkv
    rcases hkv with h | h <;> simp [h]
  have hj : c3pool.join_pool 1 [("A", 5)] = .ok (true, c3pool') := by
    norm_num [c3pool, c3pool', Pool.join_pool, joinAdd, subAll, alookup, updateBal,
      Pool.surpassed_limit, Pool.surpassedLimitAux, Pool.poolDenoms, Pool.weight,
      Pool.totalAssets, checkLimiters, Limiter.surpassed_limit, String.reduceEq, strAB, strBA]
  have he : c3pool'.exit_pool 2 [("A", 10)]
      = .ok (true, Pool.mk [("A", 0), ("B", 0)] [("A", []), ("B", [])]) := by
    norm_num [c3pool', Pool.exit_pool, exitSub, addAll, alookup, updateBal,
      Pool.surpassed_limit, Pool.surpassedLimitAux, Pool.poolDenoms, Pool.weight,
      Pool.totalAssets, checkLimiters, Limiter.surpassed_limit, String.reduceEq, strAB, strBA]
  refine ⟨⟨hj, ?_⟩, ⟨he, ?_⟩⟩
  · refine (claim_C3 c3pool c3pool' 1 [("A", 5)] true hp0).1 ?_ hj
    intro kv hkv
    simp only [List.mem_cons, List.not_mem_nil, or_false] at hkv
    simp [hkv]
  · exact (claim_C3 c3pool' (Pool.mk [("A", 0), ("B", 0)] [("A", []), ("B", [])])
      2 [("A", 10)] true hp1).2 he

end Transmuter

namespace Transmuter

/-- C4 as stated is false: `add_new_denom` is a bare dict store
`self.assets[denom] = 0`.  On a duplicate it does not fail — it silently
re-initializes the balance to `0` (here wiping a balance of `5`); and on a
fresh denom it registers no (empty) limiter list: `self.limiters` has no
entry for the new denom afterwards. -/
theorem claim_C4_cex :
    (Pool.mk [("A", 5)] [("A", [])]).add_new_denom "A"
      = Pool.mk [("A", 0)] [("A", [])] ∧
    alookup ((Pool.mk [("A", (5:ℚ))] [("A", [])]).add_new_denom "B").limiters "B"
      = none := by
  constructor
  · norm_num [Pool.add_new_denom, dictInsert]
  · norm_num [Pool.add_new_denom, alookup, String.reduceEq, strAB, strBA]

/-- C4 (amended): `add_new_denom(denom)` unconditionally stores balance `0`
for `denom`: it appends `(denom, 0)` when the denom is fresh and silently
resets the existing balance to `0` when it is already present (never a
reported error), other balances are untouched, and the limiter registry is
not modified at all — in particular no empty limiter list is created. -/
theorem claim_C4 (p : Pool) (d : String) :
    alookup (p.add_new_denom d).assets d = some 0 ∧
    (p.add_new_denom d).limiters = p.limiters ∧
    (alookup p.assets d = none → (p.add_new_denom d).assets = p.assets ++ [(d, 0)]) ∧
    (∀ k, k ≠ d → alookup (p.add_new_denom d).assets k = alookup p.assets k) :=
  ⟨alookup_dictInsert_self p.assets d 0, rfl,
   fun h => dictInsert_of_missing p.assets d 0 h,
   fun k hk => alookup_dictInsert_other p.assets d k 0 hk⟩

theorem claim_C4_witness :
    alookup ((Pool.mk [("A", (5:ℚ))] [("A", [])]).add_new_denom "B").assets "B"
      = some 0 ∧
    ((Pool.mk [("A", (5:ℚ))] [("A", [])]).add_new_denom "B").assets
      = [("A", 5)] ++ [("B", 0)] ∧
    alookup ((Pool.mk [("A", (5:ℚ))] [("A", [])]).add_new_denom "B").assets "A"
      = alookup (Pool.mk [("A", (5:ℚ))] [("A", [])]).assets "A" :=
  ⟨(claim_C4 (Pool.mk [("A", (5:ℚ))] [("A", [])]) "B").1,
   (claim_C4 (Pool.mk [("A", (5:ℚ))] [("A", [])]) "B").2.2.1
     (by norm_num [alookup, String.reduceEq, strAB, strBA]),
   (claim_C4 (Pool.mk [("A", (5:ℚ))] [("A", [])]) "B").2.2.2 "A"
     (by simp)⟩

/-- C5: `ChangeLimiter.surpassed_limit(timestamp, value)` returns `False`
whenever the sample window is empty; on a non-empty window (and a query
timestamp distinct from the oldest sample's, which would raise), it returns
`value > TWMA + offset`, where TWMA is the sum over consecutive sample pairs
of `(t_{i+1} - t_i) * v_i` divided by `timestamp - t_0` with `t_0` the
oldest sample's timestamp; with exactly one sample the TWMA is `0` and the
result is `value > offset`. -/
theorem claim_C5 (off : ℚ) (w : List (ℤ × ℚ)) (wl : ℕ) (t : ℤ) (v : ℚ) :
    (w = [] → (Limiter.change off w wl).surpassed_limit t v = some false) ∧
    (∀ t0 v0 rest, w = (t0, v0) :: rest → t ≠ t0 →
      (Limiter.change off w wl).surpassed_limit t v
        = some (decide (twmaSpec w / ((t - t0 : ℤ) : ℚ) + off < v))) ∧
    (∀ t0 v0, w = [(t0, v0)] → t ≠ t0 →
      (Limiter.change off w wl).surpassed_limit t v = some (decide (off < v))) := by
  refine ⟨?_, ?_, ?_⟩
  · rintro rfl
    rfl
  · rintro t0 v0 rest rfl hne
    simp only [Limiter.surpassed_limit, if_neg hne, twmaNum_eq_twmaSpec]
  · rintro t0 v0 rfl hne
    simp only [Limiter.surpassed_limit, if_neg hne]
    norm_num [twmaNum]

theorem claim_C5_witness :
    (Limiter.change (1/10) [] 3).surpassed_limit 10 (1/4) = some false ∧
    (Limiter.change (1/10) [(5, (1/2 : ℚ))] 3).surpassed_limit 10 (1/4)
      = some (decide ((1:ℚ)/10 < 1/4)) ∧
    (Limiter.change (1/10) [(5, (1/2 : ℚ)), (7, (3/4 : ℚ))] 3).surpassed_limit 10 (1/4)
      = some (decide
          (twmaSpec [(5, (1/2 : ℚ)), (7, (3/4 : ℚ))] / ((10 - 5 : ℤ) : ℚ) + 1/10 < 1/4)) :=
  ⟨(claim_C5 (1/10) [] 3 10 (1/4)).1 rfl,
   (claim_C5 (1/10) [(5, (1/2 : ℚ))] 3 10 (1/4)).2.2 5 (1/2) rfl (by decide),
   (claim_C5 (1/10) [(5, (1/2 : ℚ)), (7, (3/4 : ℚ))] 3 10 (1/4)).2.1
     5 (1/2) [(7, (3/4 : ℚ))] rfl (by decide)⟩

/-- C6: an `exit_pool(t, {A: X})` request with `X` above the current balance
`b` of `A` is clamped to `b` before limit checking: on a committed call the
balance of `A` becomes exactly `0` (never negative) and every other asset is
untouched; on a limit violation exactly the clamped amount is restored, so
the pool equals its pre-call state. -/
theorem claim_C6 (p p' : Pool) (t : ℤ) (A : String) (X b : ℚ)
    (hb : alookup p.assets A = some b) (hX : b < X) :
    (p.exit_pool t [(A, X)] = .ok (true, p') →
      alookup p'.assets A = some 0 ∧
      ∀ k, k ≠ A → alookup p'.assets k = alookup p.assets k) ∧
    (p.exit_pool t [(A, X)] = .ok (false, p') → p' = p) := by
  constructor
  · intro h
    obtain ⟨l, cs, hsub, hlim, htrue, _⟩ := exit_pool_ok p p' t [(A, X)] true h
    have hassets : p'.assets = l := htrue rfl
    have hl : l = updateBal p.assets A (fun v => v - b) := by
      simp only [exitSub, hb, if_pos hX] at hsub
      injection hsub with h1
      injection h1 with h2 _
      exact h2.symm
    constructor
    · rw [hassets, hl, alookup_updateBal_self p.assets A _ b hb, sub_self]
    · intro k hk
      rw [hassets, hl, alookup_updateBal_other p.assets A k _ hk]
  · exact exit_rollback p p' t [(A, X)]

def c6pool : Pool := ⟨[("A", 5), ("B", 5)], [("A", []), ("B", [])]⟩

def c6pool' : Pool := ⟨[("A", 0), ("B", 5)], [("A", []), ("B", [])]⟩

def c6poolF : Pool := ⟨[("A", 5), ("B", 5)], [("A", []), ("B", [Limiter.static (3/5)])]⟩

theorem claim_C6_witness :
    (c6pool.exit_pool 1 [("A", 10)] = .ok (true, c6pool') ∧
      alookup c6pool'.assets "A" = some 0) ∧
    (c6poolF.exit_pool 1 [("A", 10)] = .ok (false, c6poolF) ∧ c6poolF = c6poolF) := by
  have he : c6pool.exit_pool 1 [("A", 10)] = .ok (true, c6pool') := by
    norm_num [c6pool, c6pool', Pool.exit_pool, exitSub, addAll, alookup, updateBal,
      Pool.surpassed_limit, Pool.surpassedLimitAux, Pool.poolDenoms, Pool.weight,
      Pool.totalAssets, checkLimiters, Limiter.surpassed_limit, String.reduceEq, strAB, strBA]
  have hf : c6poolF.exit_pool 1 [("A", 10)] = .ok (false, c6poolF) := by
    norm_num [c6poolF, Pool.exit_pool, exitSub, addAll, alookup, updateBal,
      Pool.surpassed_limit, Pool.surpassedLimitAux, Pool.poolDenoms, Pool.weight,
      Pool.totalAssets, checkLimiters, Limiter.surpassed_limit, String.reduceEq, strAB, strBA]
  have hbA : alookup c6pool.assets "A" = some 5 := by
    norm_num [c6pool, alookup]
  have hbF : alookup c6poolF.assets "A" = some 5 := by
    norm_num [c6poolF, alookup]
  exact ⟨⟨he, ((claim_C6 c6pool c6pool' 1 "A" 10 5 hbA (by norm_num)).1 he).1⟩,
    ⟨hf, (claim_C6 c6poolF c6poolF 1 "A" 10 5 hbF (by norm_num)).2 hf⟩⟩

/-- C7: on a pool with distinct denom keys, if the total balance is positive
then each registered asset's weight is its balance divided by the total and
the weights of all assets sum to exactly `1`; if the total balance is `0`,
`weight` returns `0` for every denom. -/
theorem claim_C7 (p : Pool) (hnd : (p.assets.map Prod.fst).Nodup) :
    (0 < p.totalAssets →
      ((p.poolDenoms.map (fun d => (p.weight d).getD 0)).sum = 1 ∧
       ∀ kv ∈ p.assets, p.weight kv.1 = some (kv.2 / p.totalAssets))) ∧
    (p.totalAssets = 0 → ∀ d, p.weight d = some 0) := by
  constructor
  · intro hpos
    refine ⟨sum_weights p hnd (ne_of_gt hpos), ?_⟩
    intro kv hkv
    rw [Pool.weight, if_neg (ne_of_gt hpos),
      alookup_eq_of_mem_nodup p.assets hnd kv hkv]
    rfl
  · intro h0 d
    simp [Pool.weight, h0]

def c7pool : Pool := ⟨[("A", 1), ("B", 3)], [("A", []), ("B", [])]⟩

def c7poolZ : Pool := ⟨[("A", 0), ("B", 0)], [("A", []), ("B", [])]⟩

theorem claim_C7_witness :
    (c7pool.poolDenoms.map (fun d => (c7pool.weight d).getD 0)).sum = 1 ∧
    c7poolZ.weight "Q" = some 0 := by
  have hnd : (c7pool.assets.map Prod.fst).Nodup := by
    simp [c7pool, List.nodup_cons]
  have hndZ : (c7poolZ.assets.map Prod.fst).Nodup := by
    simp [c7poolZ, List.nodup_cons]
  refine ⟨((claim_C7 c7pool hnd).1 ?_).1, (claim_C7 c7poolZ hndZ).2 ?_ "Q"⟩
  · norm_num [c7pool, Pool.totalAssets]
  · norm_num [c7poolZ, Pool.totalAssets]

end Transmuter

namespace Transmuter

/-- C8: no pool operation ever touches the limiter registry — in every
outcome (commit, rollback, or propagated error) of `join_pool`, `exit_pool`
and `swap`, the `limiters` mapping (hence every `ChangeLimiter` sample
window registered on the pool) is exactly the pre-call one; the
window-recording method is never invoked, so a window that starts empty
stays empty. -/
theorem claim_C8 (p : Pool) (t : ℤ) (am : List (String × ℚ))
    (dIn dOut : String) (x : ℚ) :
    (∀ b p', p.join_pool t am = .ok (b, p') → p'.limiters = p.limiters) ∧
    (∀ p', p.join_pool t am = .error p' → p'.limiters = p.limiters) ∧
    (∀ b p', p.exit_pool t am = .ok (b, p') → p'.limiters = p.limiters) ∧
    (∀ p', p.exit_pool t am = .error p' → p'.limiters = p.limiters) ∧
    (∀ b p', p.swap dIn dOut t x = .ok (b, p') → p'.limiters = p.limiters) ∧
    (∀ p', p.swap dIn dOut t x = .error p' → p'.limiters = p.limiters) := by
  refine ⟨?_, ?_, ?_, ?_, ?_, ?_⟩
  · intro b p' h
    obtain ⟨l, _, hlim, _⟩ := join_pool_ok p p' t am b h
    exact hlim
  · intro p' h
    exact join_pool_error p p' t am h
  · intro b p' h
    obtain ⟨l, cs, _, hlim, _⟩ := exit_pool_ok p p' t am b h
    exact hlim
  · intro p' h
    exact exit_pool_error p p' t am h
  · intro b p' h
    exact (swap_ok p p' dIn dOut t x b h).1
  · intro p' h
    exact swap_error p p' dIn dOut t x h

def c8pool : Pool := ⟨[("A", 0)], [("A", [Limiter.change (1/1000) [] 10])]⟩

def c8pool' : Pool := ⟨[("A", 5)], [("A", [Limiter.change (1/1000) [] 10])]⟩

theorem claim_C8_witness :
    c8pool.join_pool 1 [("A", 5)] = .ok (true, c8pool') ∧
    c8pool'.limiters = c8pool.limiters := by
  have hj : c8pool.join_pool 1 [("A", 5)] = .ok (true, c8pool') := by
    norm_num [c8pool, c8pool', Pool.join_pool, joinAdd, subAll, alookup, updateBal,
      Pool.surpassed_limit, Pool.surpassedLimitAux, Pool.poolDenoms, Pool.weight,
      Pool.totalAssets, checkLimiters, Limiter.surpassed_limit, String.reduceEq, strAB, strBA]
  exact ⟨hj, (claim_C8 c8pool 1 [("A", 5)] "A" "A" 0).1 true c8pool' hj⟩

/-- C9: `project_point(v)` equals `v - ((sum(v) - 1) / n) * ones` with
`n = len(v)`; for nonempty `v` the image always sums to `1` (lies on the
hyperplane), the map is idempotent, every vector already on the hyperplane
is a fixed point, and on the spec's concrete inputs
`project_point [0.5, 0.5] = [0.5, 0.5]` and
`project_point [0.2, 0.2] = [0.5, 0.5]`. -/
theorem claim_C9 (v : List ℚ) (h : 0 < v.length) :
    project_point v = v.map (fun x => x - (v.sum - 1) / (v.length : ℚ)) ∧
    (project_point v).sum = 1 ∧
    project_point (project_point v) = project_point v ∧
    (v.sum = 1 → project_point v = v) ∧
    project_point [(1:ℚ)/2, 1/2] = [1/2, 1/2] ∧
    project_point [(1:ℚ)/5, 1/5] = [1/2, 1/2] := by
  have hlen : ((v.length : ℚ)) ≠ 0 :=
    Nat.cast_ne_zero.mpr (Nat.pos_iff_ne_zero.mp h)
  refine ⟨rfl, project_point_sum v hlen, ?_, project_point_fixed v, ?_, ?_⟩
  · exact project_point_fixed _ (project_point_sum v hlen)
  · norm_num [project_point]
  · norm_num [project_point]

theorem claim_C9_witness :
    (project_point [(2:ℚ), 3]).sum = 1 ∧
    project_point [(1:ℚ)/2, 1/2] = [1/2, 1/2] :=
  ⟨(claim_C9 [(2:ℚ), 3] (by norm_num)).2.1,
   (claim_C9 [(1:ℚ)/2, 1/2] (by norm_num)).2.2.2.1 (by norm_num)⟩

/-- C10: with a non-empty sample window, querying
`ChangeLimiter.surpassed_limit` at a timestamp equal to the oldest sample's
timestamp divides by zero (the TWMA denominator `timestamp - t_0` is `0`),
so the call raises rather than returning; the error is reachable through
the public interface by recording a sample and querying at that same
timestamp. -/
theorem claim_C10 :
    (∀ (off : ℚ) (wl : ℕ) (t0 : ℤ) (v0 v : ℚ) (rest : List (ℤ × ℚ)),
      (Limiter.change off ((t0, v0) :: rest) wl).surpassed_limit t0 v = none) ∧
    ((Limiter.change (1/1000) [] 10).update 5 (1/2)).surpassed_limit 5 (3/4)
      = none := by
  constructor
  · intro off wl t0 v0 v rest
    simp [Limiter.surpassed_limit]
  · norm_num [Limiter.update, Limiter.surpassed_limit]

end Transmuter
